import Mathlib

/-!
Shallow embedding of the backend-connectivity core of the hahomematic
library: the JSON-RPC session manager (json_rpc_client.py), the
dual-protocol client with its paramset cache (client.py), the backend
resolver (ClientFactory.get_client), and the call-parameter collector
(platforms/entity.py).  Python dicts are embedded as association lists
that keep insertion order (updates in place, new keys appended), matching
CPython dict semantics.  Timestamps are integers (seconds); network
effects are passed in as explicit oracle arguments and network calls are
counted in the result.
-/

namespace Hahomematic

/-- Lookup in an association list (Python dict read). -/
def alGet {K V : Type} [DecidableEq K] : List (K × V) → K → Option V
  | [], _ => none
  | (k1, v1) :: t, k => if k1 = k then some v1 else alGet t k

/-- Update in an association list with Python dict semantics: an existing
key is overwritten in place, a new key is appended at the end. -/
def alSet {K V : Type} [DecidableEq K] : List (K × V) → K → V → List (K × V)
  | [], k, v => [(k, v)]
  | (k1, v1) :: t, k, v =>
    if k1 = k then (k, v) :: t else (k1, v1) :: alSet t k v

theorem alGet_alSet_same {K V : Type} [DecidableEq K] (m : List (K × V)) (k : K) (v : V) :
    alGet (alSet m k v) k = some v := by
  induction m with
  | nil => simp [alGet, alSet]
  | cons h t ih =>
    obtain ⟨k1, v1⟩ := h
    by_cases hk : k1 = k
    · simp [alSet, alGet, hk]
    · simp [alSet, alGet, hk, ih]

theorem alGet_alSet_ne {K V : Type} [DecidableEq K] (m : List (K × V)) (k k2 : K) (v : V)
    (hne : k2 ≠ k) : alGet (alSet m k v) k2 = alGet m k2 := by
  induction m with
  | nil =>
    have h1 : ¬ k = k2 := fun h => hne h.symm
    simp [alGet, alSet, h1]
  | cons h t ih =>
    obtain ⟨k1, v1⟩ := h
    by_cases hk : k1 = k
    · subst hk
      have h1 : ¬ k1 = k2 := fun h => hne h.symm
      simp [alSet, alGet, h1]
    · simp [alSet, alGet, hk, ih]

/-- The keys of an updated association list: unchanged when the key was
present, the key appended when absent. -/
theorem alSet_map_fst {K V : Type} [DecidableEq K] (m : List (K × V)) (k : K) (v : V) :
    (alSet m k v).map Prod.fst = if k ∈ m.map Prod.fst then m.map Prod.fst
      else m.map Prod.fst ++ [k] := by
  induction m with
  | nil => simp [alSet]
  | cons h t ih =>
    obtain ⟨k1, v1⟩ := h
    by_cases hk : k1 = k
    · subst hk; simp [alSet]
    · have hne : ¬ k = k1 := fun h => hk h.symm
      by_cases hmem : k ∈ t.map Prod.fst <;>
        simp [alSet, hk, ih, hne, hmem]

theorem alSet_nodup_keys {K V : Type} [DecidableEq K] (m : List (K × V)) (k : K) (v : V)
    (h : (m.map Prod.fst).Nodup) : ((alSet m k v).map Prod.fst).Nodup := by
  rw [alSet_map_fst]
  by_cases hmem : k ∈ m.map Prod.fst
  · simpa [hmem] using h
  · simp only [hmem, if_false]
    exact List.nodup_append.mpr ⟨h, List.nodup_singleton k, by
      intro a ha hb
      simp at hb
      subst hb
      exact hmem ha⟩

theorem alSet_mem {K V : Type} [DecidableEq K] {m : List (K × V)} {k : K} {v : V}
    {e : K × V} (h : e ∈ alSet m k v) : e = (k, v) ∨ e ∈ m := by
  induction m with
  | nil => simpa [alSet] using h
  | cons hd t ih =>
    obtain ⟨k1, v1⟩ := hd
    by_cases hk : k1 = k
    · simp only [alSet, hk, if_true, List.mem_cons] at h
      rcases h with h | h
      · exact Or.inl h
      · exact Or.inr (List.mem_cons_of_mem _ h)
    · simp only [alSet, hk, if_false, List.mem_cons] at h
      rcases h with h | h
      · exact Or.inr (by simp [h])
      · rcases ih h with h1 | h1
        · exact Or.inl h1
        · exact Or.inr (List.mem_cons_of_mem _ h1)

theorem alGet_eq_none_of_not_mem {K V : Type} [DecidableEq K] {m : List (K × V)} {k : K}
    (h : k ∉ m.map Prod.fst) : alGet m k = none := by
  induction m with
  | nil => rfl
  | cons hd t ih =>
    obtain ⟨k1, v1⟩ := hd
    simp only [List.map_cons, List.mem_cons] at h
    push_neg at h
    have h1 : ¬ k1 = k := fun hh => h.1 hh.symm
    simp [alGet, h1, ih h.2]

theorem alGet_isSome_of_mem {K V : Type} [DecidableEq K] {m : List (K × V)} {k : K}
    (h : k ∈ m.map Prod.fst) : (alGet m k).isSome := by
  induction m with
  | nil => simp at h
  | cons hd t ih =>
    obtain ⟨k1, v1⟩ := hd
    by_cases hk : k1 = k
    · simp [alGet, hk]
    · simp only [List.map_cons, List.mem_cons] at h
      rcases h with h | h
      · exact absurd h.symm hk
      · simp [alGet, hk, ih h]

/-! ### JSON-RPC session manager (json_rpc_client.py) -/

/-- Freshness window for a JSON-RPC session id, seconds
(_MAX_JSON_SESSION_AGE in json_rpc_client.py). -/
def MAX_JSON_SESSION_AGE : Int := 90

/-- Session-relevant state of JsonRpcAioHttpClient.  Credentials are
optional strings as in the constructor; timestamps are integer seconds. -/
structure JsonSession where
  username : Option String
  password : Option String
  session_id : Option String
  last_session_id_refresh : Option Int
  deriving Repr, DecidableEq

/-- Property is_activated: a session id is present. -/
def JsonSession.is_activated (s : JsonSession) : Bool :=
  s.session_id.isSome

/-- Property _has_credentials: username present and non-empty, password
present. -/
def JsonSession.has_credentials (s : JsonSession) : Bool :=
  s.username.isSome && s.username != some "" && s.password.isSome

/-- Embedding of _updated_within_seconds.  The source computes
(datetime.now() - last_refresh).seconds, the seconds field of a Python
timedelta, which is the total difference reduced modulo one day (86400
seconds, Euclidean remainder); that value is compared with the maximum
age. -/
def updated_within_seconds (s : JsonSession) (now max_age_seconds : Int) : Bool :=
  match s.last_session_id_refresh with
  | none => false
  | some t => (now - t) % 86400 < max_age_seconds

/-- Embedding of _do_login.  The network is an oracle: loginResult is the
session id the backend would return for a Session.login post (none for a
falsy result).  Returns the new session id and the number of network
calls made. -/
def do_login (s : JsonSession) (loginResult : Option String) : Option String × Nat :=
  if s.has_credentials then (loginResult, 1) else (none, 0)

/-- Embedding of _do_renew_login.  renewOk is the backend's answer to a
Session.renew post; loginResult feeds the login fallback.  Returns the
resulting session id, the resulting last-refresh timestamp and the number
of network calls made. -/
def do_renew_login (s : JsonSession) (sid : String) (now : Int)
    (renewOk : Bool) (loginResult : Option String) :
    Option String × Option Int × Nat :=
  if updated_within_seconds s now MAX_JSON_SESSION_AGE then
    (some sid, s.last_session_id_refresh, 0)
  else if renewOk then
    (some sid, some now, 1)
  else
    let (r, c) := do_login s loginResult
    (r, s.last_session_id_refresh, 1 + c)

/-- Embedding of _login_or_renew.  Returns the new session state, the
number of network calls made, and the boolean result (session id present
afterwards).  The source checks truthiness of the session id before
renewing, so an empty-string session id short-circuits. -/
def login_or_renew (s : JsonSession) (now : Int) (renewOk : Bool)
    (loginResult : Option String) : JsonSession × Nat × Bool :=
  if ¬ s.is_activated then
    let (sid, c) := do_login s loginResult
    ({ s with session_id := sid, last_session_id_refresh := some now }, c, sid.isSome)
  else
    match s.session_id with
    | some sid =>
      if sid ≠ "" then
        let (sid2, lr, c) := do_renew_login s sid now renewOk loginResult
        ({ s with session_id := sid2, last_session_id_refresh := lr }, c, sid2.isSome)
      else (s, 0, true)
    | none => (s, 0, false)

/-- Embedding of clear_session. -/
def clear_session (s : JsonSession) : JsonSession :=
  { s with session_id := none }

/-- Embedding of the state effect of logout / _do_logout: when a session
id is present a Session.logout post is attempted and the session is
cleared in a finally block; without a session id nothing happens (the
session is already absent). -/
def logout_effect (s : JsonSession) : JsonSession :=
  match s.session_id with
  | none => s
  | some _ => clear_session s

/-- An HTTP response as _do_post sees it: status code, and the
application-level error envelope of the JSON body (the error message when
the envelope is truthy). -/
structure HttpResponse where
  status : Nat
  error : Option String
  deriving Repr, DecidableEq

/-- Exceptions raised by _do_post. -/
inductive PostError where
  | authFailure (msg : String)
  | clientException (msg : String)
  deriving Repr, DecidableEq

/-- Character-level prefix test (the Python str.startswith). -/
def strStartsWith (s pre : String) : Bool :=
  pre.data.isPrefixOf s.data

/-- Embedding of the response-classification and exception path of
_do_post for a completed HTTP exchange: a 200 response with a truthy
error envelope raises AuthFailure when the message starts with the
access-denied marker and ClientException otherwise; a non-200 response
raises ClientException; the except-handler performs logout (clearing the
session) before re-raising. -/
def do_post_response (s : JsonSession) (resp : HttpResponse) :
    JsonSession × Except PostError HttpResponse :=
  let outcome : Except PostError HttpResponse :=
    if resp.status = 200 then
      match resp.error with
      | some msg =>
        if strStartsWith msg "access denied" then .error (.authFailure msg)
        else .error (.clientException msg)
      | none => .ok resp
    else .error (.clientException "bad status")
  match outcome with
  | .ok r => (s, .ok r)
  | .error e => (logout_effect s, .error e)

/-! ### Dual-protocol client (client.py) -/

/-- Result of one legacy-transport probe call (proxy.ping or
proxy.clientServerInitialized): the call returns a truth value, or raises
NoConnection (transport failure) or ProxyException (remote fault). -/
inductive ProbeResult where
  | ok (b : Bool)
  | noConnection
  | proxyError
  deriving Repr, DecidableEq

/-- Client state relevant to connectivity: the connect flag, presence of
the owning central unit, the initialization timestamp (0 = not
initialized) and whether a JSON-RPC session is active. -/
structure ClientState where
  connect : Bool
  central_present : Bool
  time_initialized : Int
  json_session_activated : Bool
  deriving Repr, DecidableEq

/-- Backend flavor of a client. -/
inductive Flavor where
  | ccu
  | homegear
  deriving Repr, DecidableEq

/-- Status codes returned by proxy_init / proxy_de_init (the
PROXY_*_SUCCESS / FAILED / SKIPPED constants). -/
inductive ProxyStatus where
  | success
  | failed
  | skipped
  deriving Repr, DecidableEq

/-- Embedding of ClientCCU._check_connection: ping the backend; a truthy
result sets time_initialized to now and reports success; a falsy result,
NoConnection or ProxyException sets time_initialized to 0 and reports
failure. -/
def clientCCU_check_connection (st : ClientState) (now : Int) (probe : ProbeResult) :
    ClientState × Bool :=
  match probe with
  | .ok true => ({ st with time_initialized := now }, true)
  | .ok false => ({ st with time_initialized := 0 }, false)
  | .noConnection => ({ st with time_initialized := 0 }, false)
  | .proxyError => ({ st with time_initialized := 0 }, false)

/-- Embedding of ClientHomegear._check_connection: query
clientServerInitialized; same timestamp effects as the CCU flavor. -/
def clientHomegear_check_connection (st : ClientState) (now : Int) (probe : ProbeResult) :
    ClientState × Bool :=
  match probe with
  | .ok true => ({ st with time_initialized := now }, true)
  | .ok false => ({ st with time_initialized := 0 }, false)
  | .noConnection => ({ st with time_initialized := 0 }, false)
  | .proxyError => ({ st with time_initialized := 0 }, false)

/-- Dispatch of the abstract _check_connection to the concrete flavor. -/
def check_connection (fl : Flavor) (st : ClientState) (now : Int) (probe : ProbeResult) :
    ClientState × Bool :=
  match fl with
  | .ccu => clientCCU_check_connection st now probe
  | .homegear => clientHomegear_check_connection st now probe

/-- Embedding of Client.is_connected: run the flavor-specific probe,
return false if it failed, otherwise compare now - time_initialized with
the freshness window (config.INIT_TIMEOUT, passed as init_timeout). -/
def is_connected (fl : Flavor) (st : ClientState) (now : Int) (probe : ProbeResult)
    (init_timeout : Int) : ClientState × Bool :=
  let (st2, c) := check_connection fl st now probe
  if ¬ c then (st2, false)
  else (st2, decide (now - st2.time_initialized < init_timeout))

/-- Embedding of Client.proxy_init.  outcome is the proxy.init call
result (error = ProxyException).  Returns the new state, the status and
the number of legacy-transport calls made. -/
def proxy_init (st : ClientState) (now : Int) (outcome : Except Unit Unit) :
    ClientState × ProxyStatus × Nat :=
  if ¬ st.connect then (st, .skipped, 0)
  else if ¬ st.central_present then ({ st with time_initialized := 0 }, .failed, 0)
  else
    match outcome with
    | .error _ => ({ st with time_initialized := 0 }, .failed, 1)
    | .ok _ => ({ st with time_initialized := now }, .success, 1)

/-- Embedding of Client.proxy_de_init.  A JSON-RPC logout is performed
first when a session is active (not a legacy-transport call); then the
connect flag, the central unit and the initialization timestamp are
checked; only then is the legacy de-init call issued.  Returns the new
state, the status and the number of legacy-transport calls made. -/
def proxy_de_init (st : ClientState) (outcome : Except Unit Unit) :
    ClientState × ProxyStatus × Nat :=
  let st1 := if st.json_session_activated then { st with json_session_activated := false } else st
  if ¬ st1.connect then (st1, .skipped, 0)
  else if ¬ st1.central_present then (st1, .failed, 0)
  else if st1.time_initialized = 0 then (st1, .skipped, 0)
  else
    match outcome with
    | .error _ => (st1, .failed, 1)
    | .ok _ => ({ st1 with time_initialized := 0 }, .success, 1)

/-- Contiguous-substring test on strings (the Python in operator for a
string pair). -/
def strContains (s sub : String) : Bool :=
  (List.range (s.data.length + 1)).any fun i => sub.data.isPrefixOf (s.data.drop i)

/-- Embedding of the flavor decision in ClientFactory.get_client: a
version string containing Homegear or pydevccu yields the Homegear
client, anything else the CCU client. -/
def get_client (version : String) : Flavor :=
  if strContains version "Homegear" || strContains version "pydevccu" then .homegear
  else .ccu

/-- Embedding of ClientHomegear.get_virtual_remote: always none. -/
def clientHomegear_get_virtual_remote (_st : ClientState) : Option String :=
  none

/-! ### Paramset cache (Client.fetch_paramset / Client.fetch_paramsets) -/

/-- A parameter-set description as cached: parameter name to description
data (the concrete payload is irrelevant to the cache logic; the empty
list is the empty description dict). -/
abbrev PDesc : Type := List (String × Int)

/-- The three-level paramset cache: interface id, then device/channel
address, then paramset kind, to description. -/
abbrev Cache : Type := List (String × List (String × List (String × PDesc)))

/-- Lookup of one (interface, address, kind) triple in the cache. -/
def cacheGet (c : Cache) (iface address kind : String) : Option PDesc :=
  alGet ((alGet ((alGet c iface).getD []) address).getD []) kind

/-- Kinds of paramsets relevant to device operation.
Modelled from the spec: the RELEVANT_PARAMSETS allow-list constant lives
in the const module, which is not part of the provided sources; the spec
describes it as a fixed allow-list of the paramset kinds relevant to
device operation (operating values and master configuration). -/
def RELEVANT_PARAMSETS : List String := ["VALUES", "MASTER"]

/-- Embedding of Client.fetch_paramset.  oracle is the result of the
proxy.getParamsetDescription call (error = ProxyException, which the
source catches and merely logs).  Returns the new cache and the number of
network calls made.  The source line that re-assigns an empty dict to an
already-empty address map is a no-op and is not reproduced. -/
def fetch_paramset (c : Cache) (iface address kind : String) (update : Bool)
    (oracle : Except Unit PDesc) : Cache × Nat :=
  let c1 : Cache := if (alGet c iface).isNone then alSet c iface [] else c
  let addrMap := (alGet c1 iface).getD []
  let c2 : Cache :=
    if (alGet addrMap address).isNone then alSet c1 iface (alSet addrMap address []) else c1
  let psMap := (alGet ((alGet c2 iface).getD []) address).getD []
  if (alGet psMap kind).isNone || update then
    match oracle with
    | .ok desc =>
      (alSet c2 iface (alSet ((alGet c2 iface).getD []) address (alSet psMap kind desc)), 1)
    | .error _ => (c2, 1)
  else (c2, 0)

/-- Loop body of the per-kind fetch of fetch_paramsets: a kind not
advertised by the device description is skipped; otherwise the kind is
fetched, a ProxyException recording an empty description. -/
def fpStep (advertised : List String) (oracle : String → Except Unit PDesc)
    (acc : List (String × PDesc) × Nat) (kind : String) : List (String × PDesc) × Nat :=
  if kind ∈ advertised then
    match oracle kind with
    | .ok desc => (alSet acc.1 kind desc, acc.2 + 1)
    | .error _ => (alSet acc.1 kind [], acc.2 + 1)
  else acc

/-- Embedding of Client.fetch_paramsets: for a device description
(address plus the advertised paramset kinds), when the address is absent
from the cache or update is set, reset the address map and fetch every
relevant advertised kind; per-kind failures are isolated.  oracle gives
the per-kind call result; the result counts network calls. -/
def fetch_paramsets (c : Cache) (iface address : String) (advertised : List String)
    (update : Bool) (oracle : String → Except Unit PDesc) : Cache × Nat :=
  let c1 : Cache := if (alGet c iface).isNone then alSet c iface [] else c
  if (alGet ((alGet c1 iface).getD []) address).isNone || update then
    let r := RELEVANT_PARAMSETS.foldl (fpStep advertised oracle) ([], 0)
    (alSet c1 iface (alSet ((alGet c1 iface).getD []) address r.1), r.2)
  else (c1, 0)

/-! ### Call parameter collector (platforms/entity.py) -/

/-- State of a CallParameterCollector: the collector-wide
use_put_paramset flag (true initially, cleared for good by any opting-out
write) and the pending batch, channel address to parameter-to-value
dict. -/
structure Collector (V : Type) where
  use_put_paramset : Bool
  paramsets : List (String × List (String × V))
  deriving Repr, DecidableEq

/-- A freshly constructed collector. -/
def Collector.empty (V : Type) : Collector V :=
  { use_put_paramset := true, paramsets := [] }

/-- Embedding of CallParameterCollector.add_entity. -/
def add_entity {V : Type} (c : Collector V) (channel_address p : String) (value : V)
    (upp : Bool) : Collector V :=
  { use_put_paramset := if upp = false then false else c.use_put_paramset,
    paramsets :=
      alSet c.paramsets channel_address
        (alSet ((alGet c.paramsets channel_address).getD []) p value) }

/-- A backend write call issued by send_data. -/
inductive HmCall (V : Type) where
  | setValue (channel p : String) (v : V)
  | putParamset (channel : String) (ps : List (String × V))
  deriving Repr, DecidableEq

/-- Channel address a call is targeted at. -/
def HmCall.channel {V : Type} : HmCall V → String
  | .setValue ch _ _ => ch
  | .putParamset ch _ => ch

/-- Per-parameter set_value loop of send_data for one channel: issues the
calls in order and stops at the first failing one. -/
def sendIndividual {V : Type} (oracle : HmCall V → Bool) (channel : String) :
    List (String × V) → List (HmCall V) × Bool
  | [] => ([], true)
  | (p, v) :: rest =>
    let call := HmCall.setValue channel p v
    if oracle call then
      let r := sendIndividual oracle channel rest
      (call :: r.1, r.2)
    else ([call], false)

/-- Channel loop of send_data. -/
def sendChannels {V : Type} (flag : Bool) (oracle : HmCall V → Bool) :
    List (String × List (String × V)) → List (HmCall V) × Bool
  | [] => ([], true)
  | (ch, ps) :: rest =>
    if ps.length = 1 ∨ flag = false then
      let r := sendIndividual oracle ch ps
      if r.2 then
        let r2 := sendChannels flag oracle rest
        (r.1 ++ r2.1, r2.2)
      else (r.1, false)
    else
      let call := HmCall.putParamset ch ps
      if oracle call then
        let r2 := sendChannels flag oracle rest
        (call :: r2.1, r2.2)
      else ([call], false)

/-- Embedding of CallParameterCollector.send_data.  oracle gives the
success of each backend call (set_value / put_paramset); the result is
the list of calls issued, in order, and the overall boolean result. -/
def send_data {V : Type} (c : Collector V) (oracle : HmCall V → Bool) :
    List (HmCall V) × Bool :=
  sendChannels c.use_put_paramset oracle c.paramsets

/-- One recorded add_entity invocation. -/
structure AddOp (V : Type) where
  ch : String
  p : String
  v : V
  upp : Bool
  deriving Repr, DecidableEq

/-- Replay a sequence of add_entity calls on a fresh collector. -/
def applyOps {V : Type} (ops : List (AddOp V)) : Collector V :=
  ops.foldl (fun c o => add_entity c o.ch o.p o.v o.upp) (Collector.empty V)

/-- Calls of a batch that target one channel. -/
def callsFor {V : Type} (ch : String) (cs : List (HmCall V)) : List (HmCall V) :=
  cs.filter fun c => c.channel = ch

/-- Number of values a list of calls carries for one (channel, parameter)
pair, counting both single-parameter writes and occurrences inside
batched writes. -/
def writesFor {V : Type} (ch p : String) (cs : List (HmCall V)) : Nat :=
  (cs.map fun c =>
    match c with
    | .setValue ch2 p2 _ => if ch2 = ch ∧ p2 = p then 1 else 0
    | .putParamset ch2 ps => if ch2 = ch then (ps.filter fun e => e.1 = p).length else 0).sum

/-- Value of the most recent add_entity call for a (channel, parameter)
pair in a sequence of operations. -/
def lastWritten {V : Type} (ops : List (AddOp V)) (ch p : String) : Option V :=
  ops.foldl (fun acc o => if o.ch = ch ∧ o.p = p then some o.v else acc) none

/-- Well-formedness of a collector batch: channel keys are distinct and
so are the parameter keys of every channel. -/
def CollectorWF {V : Type} (c : Collector V) : Prop :=
  (c.paramsets.map Prod.fst).Nodup ∧
    ∀ e ∈ c.paramsets, (e.2.map Prod.fst).Nodup

/-- Calls that send_data issues for one channel entry when every call
succeeds: one set_value per parameter for a singleton paramset or a
collector that opted out of batching, one put_paramset otherwise. -/
def chunkCalls {V : Type} (flag : Bool) (e : String × List (String × V)) : List (HmCall V) :=
  if e.2.length = 1 ∨ flag = false then e.2.map fun pv => HmCall.setValue e.1 pv.1 pv.2
  else [HmCall.putParamset e.1 e.2]

theorem sendIndividual_allTrue {V : Type} (ch : String) (ps : List (String × V)) :
    sendIndividual (fun _ => true) ch ps = (ps.map fun pv => HmCall.setValue ch pv.1 pv.2, true) := by
  induction ps with
  | nil => rfl
  | cons h t ih =>
    obtain ⟨p, v⟩ := h
    simp [sendIndividual, ih]

theorem sendChannels_allTrue {V : Type} (flag : Bool)
    (l : List (String × List (String × V))) :
    sendChannels flag (fun _ => true) l = (l.flatMap (chunkCalls flag), true) := by
  induction l with
  | nil => rfl
  | cons h t ih =>
    obtain ⟨ch, ps⟩ := h
    by_cases hc : ps.length = 1 ∨ flag = false
    · simp [sendChannels, hc, sendIndividual_allTrue, ih, chunkCalls]
    · simp [sendChannels, hc, ih, chunkCalls]

theorem send_data_allTrue {V : Type} (c : Collector V) :
    send_data c (fun _ => true) = (c.paramsets.flatMap (chunkCalls c.use_put_paramset), true) :=
  sendChannels_allTrue c.use_put_paramset c.paramsets

theorem chunkCalls_channel {V : Type} (flag : Bool) (e : String × List (String × V))
    (call : HmCall V) (h : call ∈ chunkCalls flag e) : call.channel = e.1 := by
  unfold chunkCalls at h
  by_cases hc : e.2.length = 1 ∨ flag = false
  · simp only [hc, if_true, List.mem_map] at h
    obtain ⟨pv, _, rfl⟩ := h
    rfl
  · simp only [hc, if_false, List.mem_singleton] at h
    subst h
    rfl

theorem callsFor_chunk_self {V : Type} (flag : Bool) (ch : String)
    (ps : List (String × V)) :
    callsFor ch (chunkCalls flag (ch, ps)) = chunkCalls flag (ch, ps) := by
  unfold callsFor
  apply List.filter_eq_self.mpr
  intro call hcall
  have := chunkCalls_channel flag (ch, ps) call hcall
  simp [this]

theorem callsFor_chunk_other {V : Type} (flag : Bool) (ch ch2 : String)
    (ps : List (String × V)) (hne : ch2 ≠ ch) :
    callsFor ch (chunkCalls flag (ch2, ps)) = [] := by
  unfold callsFor
  apply List.filter_eq_nil_iff.mpr
  intro call hcall
  have := chunkCalls_channel flag (ch2, ps) call hcall
  simp [this, hne]

theorem callsFor_flat_not_mem {V : Type} (flag : Bool) (ch : String)
    (l : List (String × List (String × V))) (h : ch ∉ l.map Prod.fst) :
    callsFor ch (l.flatMap (chunkCalls flag)) = [] := by
  induction l with
  | nil => rfl
  | cons hd t ih =>
    obtain ⟨ch2, ps2⟩ := hd
    simp only [List.map_cons, List.mem_cons] at h
    push_neg at h
    rw [List.flatMap_cons]
    unfold callsFor
    rw [List.filter_append]
    have h1 := callsFor_chunk_other flag ch ch2 ps2 (fun he => h.1 he.symm)
    have h2 := ih h.2
    unfold callsFor at h1 h2
    rw [h1, h2]
    rfl

theorem callsFor_flat_of_get {V : Type} (flag : Bool) (ch : String)
    (ps : List (String × V)) (l : List (String × List (String × V)))
    (hnd : (l.map Prod.fst).Nodup) (hget : alGet l ch = some ps) :
    callsFor ch (l.flatMap (chunkCalls flag)) = chunkCalls flag (ch, ps) := by
  induction l with
  | nil => simp [alGet] at hget
  | cons hd t ih =>
    obtain ⟨ch2, ps2⟩ := hd
    rw [List.flatMap_cons]
    unfold callsFor
    rw [List.filter_append]
    simp only [List.map_cons, List.nodup_cons] at hnd
    by_cases he : ch2 = ch
    · subst he
      simp only [alGet, if_true] at hget
      injection hget with hps
      subst hps
      have h1 := callsFor_chunk_self flag ch2 ps2
      have h2 := callsFor_flat_not_mem flag ch2 t hnd.1
      unfold callsFor at h1 h2
      rw [h1, h2, List.append_nil]
    · simp only [alGet, he, if_false] at hget
      have h1 := callsFor_chunk_other flag ch ch2 ps2 he
      have h2 := ih hnd.2 hget
      unfold callsFor at h1 h2
      rw [h1, h2, List.nil_append]

theorem alGet_mem {K V : Type} [DecidableEq K] {m : List (K × V)} {k : K} {v : V}
    (h : alGet m k = some v) : (k, v) ∈ m := by
  induction m with
  | nil => simp [alGet] at h
  | cons hd t ih =>
    obtain ⟨k1, v1⟩ := hd
    by_cases hk : k1 = k
    · subst hk
      simp only [alGet, if_true] at h
      injection h with hv
      subst hv
      exact List.mem_cons_self _ _
    · simp only [alGet, hk, if_false] at h
      exact List.mem_cons_of_mem _ (ih h)

theorem collectorWF_empty (V : Type) : CollectorWF (Collector.empty V) := by
  constructor
  · exact List.nodup_nil
  · intro e he
    simp [Collector.empty] at he

theorem collectorWF_add {V : Type} (c : Collector V) (ch p : String) (v : V) (upp : Bool)
    (h : CollectorWF c) : CollectorWF (add_entity c ch p v upp) := by
  obtain ⟨hkeys, hinner⟩ := h
  constructor
  · exact alSet_nodup_keys _ _ _ hkeys
  · intro e he
    rcases alSet_mem he with he1 | he1
    · subst he1
      apply alSet_nodup_keys
      cases hg : alGet c.paramsets ch with
      | none => simp
      | some m =>
        have := hinner (ch, m) (alGet_mem hg)
        simpa [hg] using this
    · exact hinner e he1

theorem collectorWF_applyOps {V : Type} (ops : List (AddOp V)) :
    CollectorWF (applyOps ops) := by
  have main : ∀ (l : List (AddOp V)) (c : Collector V), CollectorWF c →
      CollectorWF (l.foldl (fun c o => add_entity c o.ch o.p o.v o.upp) c) := by
    intro l
    induction l with
    | nil => intro c hc; exact hc
    | cons o t ih =>
      intro c hc
      exact ih _ (collectorWF_add c o.ch o.p o.v o.upp hc)
  exact main ops (Collector.empty V) (collectorWF_empty V)

/-- Pending value of one (channel, parameter) pair in a collector. -/
def collGet {V : Type} (c : Collector V) (ch p : String) : Option V :=
  alGet ((alGet c.paramsets ch).getD []) p

theorem collGet_add_same {V : Type} (c : Collector V) (ch p : String) (v : V) (upp : Bool) :
    collGet (add_entity c ch p v upp) ch p = some v := by
  unfold collGet add_entity
  simp [alGet_alSet_same]

theorem collGet_add_other {V : Type} (c : Collector V) (ch p ch2 p2 : String) (v : V)
    (upp : Bool) (hne : ¬ (ch2 = ch ∧ p2 = p)) :
    collGet (add_entity c ch p v upp) ch2 p2 = collGet c ch2 p2 := by
  unfold collGet add_entity
  by_cases hch : ch2 = ch
  · subst hch
    have hp : p2 ≠ p := fun hp => hne ⟨rfl, hp⟩
    simp only [alGet_alSet_same, Option.getD_some]
    rw [alGet_alSet_ne _ _ _ _ hp]
  · rw [alGet_alSet_ne _ _ _ _ hch]

theorem collGet_foldl {V : Type} (ops : List (AddOp V)) (c : Collector V) (ch p : String) :
    collGet (ops.foldl (fun c o => add_entity c o.ch o.p o.v o.upp) c) ch p =
      ops.foldl (fun acc o => if o.ch = ch ∧ o.p = p then some o.v else acc)
        (collGet c ch p) := by
  induction ops generalizing c with
  | nil => rfl
  | cons o t ih =>
    simp only [List.foldl_cons]
    rw [ih]
    congr 1
    by_cases hp : o.ch = ch ∧ o.p = p
    · obtain ⟨h1, h2⟩ := hp
      subst h1; subst h2
      simp [collGet_add_same]
    · simp only [hp, if_false]
      exact collGet_add_other c o.ch o.p ch p o.v o.upp
        (fun hx => hp ⟨hx.1.symm, hx.2.symm⟩)

theorem collGet_applyOps {V : Type} (ops : List (AddOp V)) (ch p : String) :
    collGet (applyOps ops) ch p = lastWritten ops ch p := by
  unfold applyOps lastWritten
  rw [collGet_foldl]
  rfl

theorem writesFor_append {V : Type} (ch p : String) (a b : List (HmCall V)) :
    writesFor ch p (a ++ b) = writesFor ch p a + writesFor ch p b := by
  unfold writesFor
  rw [List.map_append, List.sum_append]

theorem filter_fst_nil_of_not_mem {V : Type} (p : String) (l : List (String × V))
    (h : p ∉ l.map Prod.fst) : l.filter (fun e => e.1 = p) = [] := by
  induction l with
  | nil => rfl
  | cons hd t ih =>
    obtain ⟨k, v⟩ := hd
    simp only [List.map_cons, List.mem_cons] at h
    push_neg at h
    have hk : ¬ k = p := fun hh => h.1 hh.symm
    simp [List.filter, hk, ih h.2]

theorem filter_fst_length_le_one {V : Type} (p : String) (l : List (String × V))
    (h : (l.map Prod.fst).Nodup) : (l.filter (fun e => e.1 = p)).length ≤ 1 := by
  induction l with
  | nil => simp
  | cons hd t ih =>
    obtain ⟨k, v⟩ := hd
    simp only [List.map_cons, List.nodup_cons] at h
    by_cases hk : k = p
    · subst hk
      rw [List.filter_cons_of_pos (by simp)]
      rw [filter_fst_nil_of_not_mem k t h.1]
      simp
    · rw [List.filter_cons_of_neg (by simp [hk])]
      exact ih h.2

theorem writesFor_chunk_other {V : Type} (flag : Bool) (ch p ch2 : String)
    (ps : List (String × V)) (hne : ch2 ≠ ch) :
    writesFor ch p (chunkCalls flag (ch2, ps)) = 0 := by
  unfold chunkCalls writesFor
  by_cases hc : ps.length = 1 ∨ flag = false
  · simp only [hc, if_true, List.map_map]
    apply List.sum_eq_zero
    intro x hx
    simp only [List.mem_map] at hx
    obtain ⟨pv, _, rfl⟩ := hx
    simp [hne]
  · simp [hc, hne]

theorem writesFor_flat_not_mem {V : Type} (flag : Bool) (ch p : String)
    (l : List (String × List (String × V))) (h : ch ∉ l.map Prod.fst) :
    writesFor ch p (l.flatMap (chunkCalls flag)) = 0 := by
  induction l with
  | nil => rfl
  | cons hd t ih =>
    obtain ⟨ch2, ps2⟩ := hd
    simp only [List.map_cons, List.mem_cons] at h
    push_neg at h
    rw [List.flatMap_cons, writesFor_append]
    rw [writesFor_chunk_other flag ch p ch2 ps2 (fun he => h.1 he.symm), ih h.2]

theorem sum_indicator_eq_filter_length {V : Type} (p : String) (ps : List (String × V)) :
    (ps.map fun pv => if pv.1 = p then 1 else 0).sum =
      (ps.filter fun e => e.1 = p).length := by
  induction ps with
  | nil => rfl
  | cons hd t ih =>
    by_cases hp : hd.1 = p
    · rw [List.filter_cons_of_pos (by simp [hp])]
      simp only [List.map_cons, List.sum_cons, hp, if_true, List.length_cons, ih]
      omega
    · rw [List.filter_cons_of_neg (by simp [hp])]
      simp [hp, ih]

theorem writesFor_chunk_self {V : Type} (flag : Bool) (ch p : String)
    (ps : List (String × V)) (h : (ps.map Prod.fst).Nodup) :
    writesFor ch p (chunkCalls flag (ch, ps)) ≤ 1 := by
  unfold chunkCalls writesFor
  by_cases hc : ps.length = 1 ∨ flag = false
  · simp only [hc, if_true, List.map_map]
    have heq : ∀ pv : String × V, pv ∈ ps →
        ((fun c : HmCall V =>
          match c with
          | .setValue ch2 p2 _ => if ch2 = ch ∧ p2 = p then 1 else 0
          | .putParamset ch2 psx => if ch2 = ch then (psx.filter fun e => e.1 = p).length else 0) ∘
          fun pv : String × V => HmCall.setValue ch pv.1 pv.2) pv =
          if pv.1 = p then 1 else 0 := by
      intro pv _
      simp
    rw [List.map_congr_left heq]
    rw [sum_indicator_eq_filter_length]
    exact filter_fst_length_le_one p ps h
  · simp only [hc, if_false, List.map_cons, List.map_nil, List.sum_cons, List.sum_nil]
    simp only [if_pos rfl, add_zero]
    exact filter_fst_length_le_one p ps h

theorem writesFor_flat_le_one {V : Type} (flag : Bool) (ch p : String)
    (l : List (String × List (String × V))) (hnd : (l.map Prod.fst).Nodup)
    (hinner : ∀ e ∈ l, (e.2.map Prod.fst).Nodup) :
    writesFor ch p (l.flatMap (chunkCalls flag)) ≤ 1 := by
  induction l with
  | nil => simp [writesFor]
  | cons hd t ih =>
    obtain ⟨ch2, ps2⟩ := hd
    simp only [List.map_cons, List.nodup_cons] at hnd
    rw [List.flatMap_cons, writesFor_append]
    by_cases he : ch2 = ch
    · subst he
      rw [writesFor_flat_not_mem flag ch2 p t hnd.1, add_zero]
      exact writesFor_chunk_self flag ch2 p ps2 (hinner (ch2, ps2) (List.mem_cons_self _ _))
    · rw [writesFor_chunk_other flag ch p ch2 ps2 he, zero_add]
      exact ih hnd.2 (fun e hx => hinner e (List.mem_cons_of_mem _ hx))

theorem flag_foldl {V : Type} (ops : List (AddOp V)) (c : Collector V) :
    (ops.foldl (fun c o => add_entity c o.ch o.p o.v o.upp) c).use_put_paramset =
      (c.use_put_paramset && ops.all fun o => o.upp) := by
  induction ops generalizing c with
  | nil => simp
  | cons o t ih =>
    simp only [List.foldl_cons, List.all_cons, ih]
    cases ho : o.upp <;> simp [add_entity, ho, Bool.and_assoc]

theorem flag_applyOps {V : Type} (ops : List (AddOp V)) :
    (applyOps ops).use_put_paramset = (ops.all fun o => o.upp) := by
  unfold applyOps
  rw [flag_foldl]
  rfl

/-- C1: on a send_data flush of a collector built by add_entity calls,
each channel of the pending batch receives one set_value call per
parameter when exactly one parameter is pending for it or when some
contributing write opted out of batching (which is exactly when the
collector-wide use_put_paramset flag is false), and exactly one
put_paramset call carrying the whole paramset otherwise. -/
theorem C1_send_data_batching {V : Type} (ops : List (AddOp V)) (ch : String)
    (ps : List (String × V))
    (hget : alGet (applyOps ops).paramsets ch = some ps) :
    callsFor ch (send_data (applyOps ops) fun _ => true).1 =
      (if ps.length = 1 ∨ (applyOps ops).use_put_paramset = false
       then ps.map fun pv => HmCall.setValue ch pv.1 pv.2
       else [HmCall.putParamset ch ps]) ∧
    ((applyOps ops).use_put_paramset = false ↔ ∃ op ∈ ops, op.upp = false) := by
  constructor
  · have hwf := collectorWF_applyOps ops
    rw [send_data_allTrue]
    simp only
    rw [callsFor_flat_of_get (applyOps ops).use_put_paramset ch ps
      (applyOps ops).paramsets hwf.1 hget]
    rfl
  · rw [flag_applyOps]
    constructor
    · intro h
      rcases List.all_eq_false.mp h with ⟨op, hop, hf⟩
      exact ⟨op, hop, by simpa using hf⟩
    · intro ⟨op, hop, hf⟩
      exact List.all_eq_false.mpr ⟨op, hop, by simp [hf]⟩

theorem C1_send_data_batching_witness :
    callsFor "c1"
        (send_data (applyOps [⟨"c1", "P1", (1 : Int), true⟩, ⟨"c1", "P2", 2, true⟩])
          fun _ => true).1 =
      [HmCall.putParamset "c1" [("P1", (1 : Int)), ("P2", 2)]] := by
  have h := (C1_send_data_batching (V := Int)
    [⟨"c1", "P1", 1, true⟩, ⟨"c1", "P2", 2, true⟩] "c1"
    [("P1", 1), ("P2", 2)] (by decide)).1
  simpa using h

/-- C10: later add_entity calls for the same (channel, parameter) pair
overwrite earlier ones in the pending batch, and a flush sends at most
one value for that pair. -/
theorem C10_last_write_wins {V : Type} (ops : List (AddOp V)) (ch p : String)
    (_hmulti : 2 ≤ (ops.filter fun o => decide (o.ch = ch ∧ o.p = p)).length) :
    collGet (applyOps ops) ch p = lastWritten ops ch p ∧
    writesFor ch p (send_data (applyOps ops) fun _ => true).1 ≤ 1 := by
  constructor
  · exact collGet_applyOps ops ch p
  · rw [send_data_allTrue]
    simp only
    exact writesFor_flat_le_one _ ch p _ (collectorWF_applyOps ops).1
      (collectorWF_applyOps ops).2

theorem C10_last_write_wins_witness :
    collGet (applyOps [⟨"c1", "P1", (1 : Int), true⟩, ⟨"c1", "P1", 2, true⟩]) "c1" "P1" =
      some 2 ∧
    writesFor "c1" "P1"
      (send_data (applyOps [⟨"c1", "P1", (1 : Int), true⟩, ⟨"c1", "P1", 2, true⟩])
        fun _ => true).1 ≤ 1 := by
  have h := C10_last_write_wins (V := Int)
    [⟨"c1", "P1", 1, true⟩, ⟨"c1", "P1", 2, true⟩] "c1" "P1" (by decide)
  exact ⟨by rw [h.1]; decide, h.2⟩

/-- C2 evaluated where the code and the claim part ways: a session whose
last refresh lies exactly one day in the past is far outside the
90-second freshness window, yet _updated_within_seconds reports it fresh
(the Python timedelta seconds field wraps modulo 86400), so
_login_or_renew reuses the session and issues no renewal call. -/
theorem C2_stale_session_no_renewal :
    updated_within_seconds ⟨some "admin", some "pw", some "abc123", some 0⟩ 86400
        MAX_JSON_SESSION_AGE = true ∧
    (86400 : Int) - 0 > MAX_JSON_SESSION_AGE ∧
    login_or_renew ⟨some "admin", some "pw", some "abc123", some 0⟩ 86400 true
        (some "fresh") =
      (⟨some "admin", some "pw", some "abc123", some 0⟩, 0, true) := by
  decide

theorem logout_effect_session_id (s : JsonSession) :
    (logout_effect s).session_id = none := by
  unfold logout_effect clear_session
  cases h : s.session_id <;> simp [h]

/-- C3: a 200-status JSON-RPC response carrying an application-level
error envelope makes _do_post raise AuthFailure when the message starts
with the access-denied marker and ClientException otherwise, and in both
cases the local session is cleared before the exception propagates. -/
theorem C3_error_envelope_classification (s : JsonSession) (resp : HttpResponse)
    (msg : String) (h200 : resp.status = 200) (herr : resp.error = some msg) :
    (do_post_response s resp).2 =
      (if strStartsWith msg "access denied" then Except.error (PostError.authFailure msg)
       else Except.error (PostError.clientException msg)) ∧
    (do_post_response s resp).1.session_id = none := by
  unfold do_post_response
  by_cases hm : strStartsWith msg "access denied" <;>
    simp [h200, herr, hm, logout_effect_session_id]

theorem C3_error_envelope_classification_witness :
    (do_post_response ⟨some "admin", some "pw", some "abc123", some 0⟩
        ⟨200, some "access denied for user"⟩).2 =
      Except.error (PostError.authFailure "access denied for user") ∧
    (do_post_response ⟨some "admin", some "pw", some "abc123", some 0⟩
        ⟨200, some "access denied for user"⟩).1.session_id = none ∧
    (do_post_response ⟨some "admin", some "pw", some "abc123", some 0⟩
        ⟨200, some "ise: invalid script"⟩).2 =
      Except.error (PostError.clientException "ise: invalid script") := by
  have h1 := C3_error_envelope_classification
    ⟨some "admin", some "pw", some "abc123", some 0⟩
    ⟨200, some "access denied for user"⟩ "access denied for user" rfl rfl
  have h2 := C3_error_envelope_classification
    ⟨some "admin", some "pw", some "abc123", some 0⟩
    ⟨200, some "ise: invalid script"⟩ "ise: invalid script" rfl rfl
  have hsw1 : strStartsWith "access denied for user" "access denied" = true := by decide
  have hsw2 : strStartsWith "ise: invalid script" "access denied" = false := by decide
  refine ⟨?_, h1.2, ?_⟩
  · rw [h1.1, if_pos hsw1]
  · rw [h2.1, if_neg (by simp [hsw2])]

theorem fetch_paramset_hit (c : Cache) (iface address kind : String) (d : PDesc)
    (oracle : Except Unit PDesc) (hhit : cacheGet c iface address kind = some d) :
    fetch_paramset c iface address kind false oracle = (c, 0) := by
  unfold cacheGet at hhit
  cases hif : alGet c iface with
  | none =>
    rw [hif] at hhit
    simp [alGet] at hhit
  | some m =>
    rw [hif] at hhit
    simp only [Option.getD_some] at hhit
    cases had : alGet m address with
    | none =>
      rw [had] at hhit
      simp [alGet] at hhit
    | some pm =>
      rw [had] at hhit
      simp only [Option.getD_some] at hhit
      simp [fetch_paramset, hif, had, hhit]

theorem fetch_paramset_success_sets (c : Cache) (iface address kind : String)
    (desc : PDesc) (hmiss : cacheGet c iface address kind = none) :
    cacheGet (fetch_paramset c iface address kind false (.ok desc)).1 iface address kind =
      some desc ∧
    (fetch_paramset c iface address kind false (.ok desc)).2 = 1 := by
  unfold cacheGet at hmiss ⊢
  cases hif : alGet c iface with
  | none =>
    simp [fetch_paramset, hif, alGet_alSet_same, alGet]
  | some m =>
    rw [hif] at hmiss
    simp only [Option.getD_some] at hmiss
    cases had : alGet m address with
    | none =>
      simp [fetch_paramset, hif, had, alGet_alSet_same, alGet]
    | some pm =>
      rw [had] at hmiss
      simp only [Option.getD_some] at hmiss
      simp [fetch_paramset, hif, had, hmiss, alGet_alSet_same]

/-- C4: a fetch_paramset call for a cached (interface, address, kind)
triple with update=false makes no network call and leaves the cache
unchanged, and two sequential fetch_paramset calls for one triple with
update=false make exactly one network call in total (the first call
populating the triple, the second hitting the cache). -/
theorem C4_fetch_paramset_idempotent (iface address kind : String) :
    (∀ (c : Cache) (d : PDesc) (oracle : Except Unit PDesc),
      cacheGet c iface address kind = some d →
      fetch_paramset c iface address kind false oracle = (c, 0)) ∧
    (∀ (c : Cache) (desc : PDesc) (oracle2 : Except Unit PDesc),
      cacheGet c iface address kind = none →
      (fetch_paramset c iface address kind false (.ok desc)).2 +
        (fetch_paramset (fetch_paramset c iface address kind false (.ok desc)).1
          iface address kind false oracle2).2 = 1) := by
  constructor
  · intro c d oracle hhit
    exact fetch_paramset_hit c iface address kind d oracle hhit
  · intro c desc oracle2 hmiss
    obtain ⟨hset, hone⟩ := fetch_paramset_success_sets c iface address kind desc hmiss
    rw [hone, fetch_paramset_hit _ iface address kind desc oracle2 hset]
    rfl

theorem C4_fetch_paramset_idempotent_witness :
    fetch_paramset [("i1", [("a1", [("VALUES", [("LEVEL", 0)])])])]
        "i1" "a1" "VALUES" false (.error ()) =
      ([("i1", [("a1", [("VALUES", [("LEVEL", 0)])])])], 0) ∧
    (fetch_paramset [] "i1" "a1" "VALUES" false (.ok [("LEVEL", 0)])).2 +
      (fetch_paramset (fetch_paramset [] "i1" "a1" "VALUES" false
        (.ok [("LEVEL", 0)])).1 "i1" "a1" "VALUES" false (.error ())).2 = 1 := by
  have h := C4_fetch_paramset_idempotent "i1" "a1" "VALUES"
  exact ⟨h.1 [("i1", [("a1", [("VALUES", [("LEVEL", 0)])])])] [("LEVEL", 0)]
    (.error ()) (by decide), h.2 [] [("LEVEL", 0)] (.error ()) (by decide)⟩

/-- C5 as stated fails on Client.fetch_paramset: a single-paramset fetch
for a fresh triple that ends in ProxyException makes one network call but
records nothing for the triple (no empty set), so a second fetch without
update makes a further network call. -/
theorem C5_counterexample_single_fetch :
    (fetch_paramset [] "i1" "a1" "VALUES" false (.error ())).2 = 1 ∧
    cacheGet (fetch_paramset [] "i1" "a1" "VALUES" false (.error ())).1
      "i1" "a1" "VALUES" = none ∧
    (fetch_paramset (fetch_paramset [] "i1" "a1" "VALUES" false (.error ())).1
      "i1" "a1" "VALUES" false (.error ())).2 = 1 := by
  decide

theorem fpStep_foldl_not_mem (advertised : List String)
    (oracle : String → Except Unit PDesc) (l : List String)
    (acc : List (String × PDesc) × Nat) (kind : String) (h : kind ∉ l) :
    alGet (l.foldl (fpStep advertised oracle) acc).1 kind = alGet acc.1 kind := by
  induction l generalizing acc with
  | nil => rfl
  | cons k t ih =>
    simp only [List.mem_cons] at h
    push_neg at h
    rw [List.foldl_cons, ih _ h.2]
    unfold fpStep
    by_cases hadv : k ∈ advertised
    · simp only [hadv, if_true]
      cases horacle : oracle k with
      | ok d => exact alGet_alSet_ne _ _ _ _ h.1
      | error e => exact alGet_alSet_ne _ _ _ _ h.1
    · simp [hadv]

theorem fpStep_foldl_mem_fail (advertised : List String)
    (oracle : String → Except Unit PDesc) (l : List String)
    (acc : List (String × PDesc) × Nat) (kind : String) (hnd : l.Nodup)
    (hmem : kind ∈ l) (hadv : kind ∈ advertised) (hfail : oracle kind = .error ()) :
    alGet (l.foldl (fpStep advertised oracle) acc).1 kind = some [] := by
  induction l generalizing acc with
  | nil => simp at hmem
  | cons k t ih =>
    simp only [List.nodup_cons] at hnd
    rw [List.foldl_cons]
    rcases List.mem_cons.mp hmem with hk | hk
    · subst hk
      rw [fpStep_foldl_not_mem advertised oracle t _ kind hnd.1]
      unfold fpStep
      simp only [hadv, if_true, hfail]
      exact alGet_alSet_same _ _ _
    · exact ih _ hnd.2 hk

/-- C5 corrected: a relevant advertised kind whose fetch_paramsets call
fails with ProxyException is recorded as an empty description, and a
subsequent fetch_paramsets for the same address without update makes no
further network call; the single-triple Client.fetch_paramset instead
leaves the cache entry of the attempted triple exactly as it was, so a
failed fresh fetch stays absent and is retried. -/
theorem C5_failed_fetch_caching (iface address kind : String)
    (advertised : List String) (c : Cache)
    (oracle oracle2 : String → Except Unit PDesc)
    (hkind : kind ∈ RELEVANT_PARAMSETS) (hadv : kind ∈ advertised)
    (hfail : oracle kind = .error ())
    (hmiss : alGet ((alGet c iface).getD []) address = none) :
    cacheGet (fetch_paramsets c iface address advertised false oracle).1
      iface address kind = some [] ∧
    fetch_paramsets (fetch_paramsets c iface address advertised false oracle).1
      iface address advertised false oracle2 =
      ((fetch_paramsets c iface address advertised false oracle).1, 0) ∧
    (∀ (c2 : Cache) (u : Unit) (kind2 : String),
      cacheGet (fetch_paramset c2 iface address kind2 false (.error u)).1
        iface address kind2 = cacheGet c2 iface address kind2) := by
  have hnodup : RELEVANT_PARAMSETS.Nodup := by decide
  have hps := fpStep_foldl_mem_fail advertised oracle RELEVANT_PARAMSETS ([], 0) kind
    hnodup hkind hadv hfail
  have hshape : ∃ m1 : List (String × List (String × PDesc)), ∃ c1 : Cache,
      fetch_paramsets c iface address advertised false oracle =
        (alSet c1 iface (alSet m1 address
          (RELEVANT_PARAMSETS.foldl (fpStep advertised oracle) ([], 0)).1),
          (RELEVANT_PARAMSETS.foldl (fpStep advertised oracle) ([], 0)).2) := by
    cases hif : alGet c iface with
    | none =>
      refine ⟨[], alSet c iface [], ?_⟩
      simp [fetch_paramsets, hif, alGet_alSet_same, alGet]
    | some m =>
      rw [hif] at hmiss
      simp only [Option.getD_some] at hmiss
      refine ⟨m, c, ?_⟩
      simp [fetch_paramsets, hif, hmiss]
  obtain ⟨m1, c1, hr⟩ := hshape
  refine ⟨?_, ?_, ?_⟩
  · rw [hr]
    unfold cacheGet
    simp [alGet_alSet_same, hps]
  · rw [hr]
    unfold fetch_paramsets
    simp [alGet_alSet_same]
  · intro c2 u kind2
    unfold cacheGet fetch_paramset
    cases hif : alGet c2 iface with
    | none =>
      simp [alGet_alSet_same, alGet]
    | some m =>
      cases had : alGet m address with
      | none =>
        simp [hif, had, alGet_alSet_same, alGet]
      | some pm =>
        cases hkd : alGet pm kind2 with
        | none => simp [hif, had, hkd]
        | some d => simp [hif, had, hkd]

theorem C5_failed_fetch_caching_witness :
    cacheGet (fetch_paramsets [] "i1" "a1" ["VALUES"] false
        (fun _ => .error ())).1 "i1" "a1" "VALUES" = some [] ∧
    (fetch_paramsets (fetch_paramsets [] "i1" "a1" ["VALUES"] false
        (fun _ => .error ())).1 "i1" "a1" ["VALUES"] false (fun _ => .error ())).2 = 0 := by
  have h := C5_failed_fetch_caching "i1" "a1" "VALUES" ["VALUES"] []
    (fun _ => .error ()) (fun _ => .error ()) (by decide) (by decide) rfl rfl
  exact ⟨h.1, by rw [h.2.1]⟩

/-- C6: is_connected is true exactly when the flavor-specific liveness
probe succeeds and the elapsed time against the (probe-refreshed)
initialization timestamp lies within the freshness window; immediately
after a successful proxy_init a call whose probe succeeds returns true,
and with time advanced beyond the window and no fresh successful probe it
returns false. -/
theorem C6_is_connected_iff (fl : Flavor) :
    (∀ (st : ClientState) (now tmo : Int) (probe : ProbeResult), 0 < tmo →
      ((is_connected fl st now probe tmo).2 = true ↔
        probe = .ok true ∧
          now - (is_connected fl st now probe tmo).1.time_initialized < tmo)) ∧
    (∀ (st : ClientState) (now tmo : Int), 0 < tmo →
      st.connect = true → st.central_present = true →
      (proxy_init st now (.ok ())).2.1 = .success ∧
      (is_connected fl (proxy_init st now (.ok ())).1 now (.ok true) tmo).2 = true) ∧
    (∀ (st : ClientState) (now2 tmo : Int) (probe : ProbeResult),
      tmo ≤ now2 - st.time_initialized → probe ≠ .ok true →
      (is_connected fl st now2 probe tmo).2 = false) := by
  refine ⟨?_, ?_, ?_⟩
  · intro st now tmo probe htmo
    cases fl <;> cases probe with
    | ok b =>
      cases b <;>
        simp [is_connected, check_connection, clientCCU_check_connection,
          clientHomegear_check_connection]
    | noConnection =>
      simp [is_connected, check_connection, clientCCU_check_connection,
        clientHomegear_check_connection]
    | proxyError =>
      simp [is_connected, check_connection, clientCCU_check_connection,
        clientHomegear_check_connection]
  · intro st now tmo htmo hcon hcen
    constructor
    · simp [proxy_init, hcon, hcen]
    · cases fl <;>
        simp [proxy_init, hcon, hcen, is_connected, check_connection,
          clientCCU_check_connection, clientHomegear_check_connection] <;> omega
  · intro st now2 tmo probe helapsed hprobe
    cases fl <;> cases probe with
    | ok b =>
      cases b
      · simp [is_connected, check_connection, clientCCU_check_connection,
          clientHomegear_check_connection]
      · exact absurd rfl hprobe
    | noConnection =>
      simp [is_connected, check_connection, clientCCU_check_connection,
        clientHomegear_check_connection]
    | proxyError =>
      simp [is_connected, check_connection, clientCCU_check_connection,
        clientHomegear_check_connection]

theorem C6_is_connected_iff_witness :
    ((is_connected .ccu ⟨true, true, 0, false⟩ 1000 (.ok true) 120).2 = true ↔
      ProbeResult.ok true = .ok true ∧
        (1000 : Int) -
          (is_connected .ccu ⟨true, true, 0, false⟩ 1000 (.ok true) 120).1.time_initialized
          < 120) ∧
    (proxy_init ⟨true, true, 0, false⟩ 500 (.ok ())).2.1 = .success ∧
    (is_connected .ccu (proxy_init ⟨true, true, 0, false⟩ 500 (.ok ())).1 500
      (.ok true) 120).2 = true ∧
    (is_connected .ccu ⟨true, true, 0, false⟩ 100000 .noConnection 120).2 = false := by
  have h := C6_is_connected_iff .ccu
  have h2 := h.2.1 ⟨true, true, 0, false⟩ 500 120 (by decide) rfl rfl
  exact ⟨h.1 ⟨true, true, 0, false⟩ 1000 120 (.ok true) (by decide), h2.1, h2.2,
    h.2.2 ⟨true, true, 0, false⟩ 100000 120 .noConnection (by decide) (by decide)⟩

/-- C7: the factory classifies a version string containing the Homegear
or pydevccu marker as the Homegear flavor and every other version string
as the CCU flavor, and the Homegear client's get_virtual_remote is always
none. -/
theorem C7_resolver_classification (version : String) (st : ClientState) :
    (get_client version = .homegear ↔
      (strContains version "Homegear" || strContains version "pydevccu") = true) ∧
    (get_client version = .ccu ↔
      (strContains version "Homegear" || strContains version "pydevccu") = false) ∧
    clientHomegear_get_virtual_remote st = none := by
  have hhb : get_client version = .homegear ↔
      (strContains version "Homegear" || strContains version "pydevccu") = true := by
    unfold get_client
    by_cases h : (strContains version "Homegear" || strContains version "pydevccu") = true
    · simp [h]
    · simp [h]
  have hcc : get_client version = .ccu ↔
      (strContains version "Homegear" || strContains version "pydevccu") = false := by
    unfold get_client
    by_cases h : (strContains version "Homegear" || strContains version "pydevccu") = true
    · simp [h]
    · simp at h
      simp [h]
  exact ⟨hhb, hcc, rfl⟩

theorem C7_resolver_classification_witness :
    get_client "Homegear 0.7.45" = .homegear ∧ get_client "CCU2 2.53" = .ccu ∧
    clientHomegear_get_virtual_remote ⟨true, true, 0, false⟩ = none := by
  have h1 := C7_resolver_classification "Homegear 0.7.45" ⟨true, true, 0, false⟩
  have h2 := C7_resolver_classification "CCU2 2.53" ⟨true, true, 0, false⟩
  exact ⟨h1.1.mpr (by decide), h2.2.1.mpr (by decide), h1.2.2⟩

/-- C8 as stated fails on the code: is_connected never consults the
connect flag, so a connection configured with connect=false still reports
connected as soon as one liveness probe succeeds. -/
theorem C8_counterexample_probe_success :
    (⟨false, true, 0, false⟩ : ClientState).connect = false ∧
    (proxy_init ⟨false, true, 0, false⟩ 0 (.ok ())).2.1 = .skipped ∧
    (is_connected .ccu ⟨false, true, 0, false⟩ 1000000 (.ok true) 120).2 = true := by
  decide

/-- C8 corrected: with connect=false, proxy_init returns skipped without
touching the legacy transport and without state change, proxy_de_init
returns skipped without any legacy-transport call, and is_connected stays
false as long as no liveness probe succeeds (the connect flag itself is
never consulted by is_connected). -/
theorem C8_non_connecting_client (st : ClientState) (now tmo : Int)
    (outcome : Except Unit Unit) (fl : Flavor) (probe : ProbeResult)
    (hc : st.connect = false) (hp : probe ≠ .ok true) :
    proxy_init st now outcome = (st, .skipped, 0) ∧
    (proxy_de_init st outcome).2 = (.skipped, 0) ∧
    (is_connected fl st now probe tmo).2 = false := by
  refine ⟨?_, ?_, ?_⟩
  · simp [proxy_init, hc]
  · unfold proxy_de_init
    cases hj : st.json_session_activated <;> simp [hj, hc]
  · cases fl <;> cases probe with
    | ok b =>
      cases b
      · simp [is_connected, check_connection, clientCCU_check_connection,
          clientHomegear_check_connection]
      · exact absurd rfl hp
    | noConnection =>
      simp [is_connected, check_connection, clientCCU_check_connection,
        clientHomegear_check_connection]
    | proxyError =>
      simp [is_connected, check_connection, clientCCU_check_connection,
        clientHomegear_check_connection]

theorem C8_non_connecting_client_witness :
    proxy_init ⟨false, true, 0, true⟩ 7 (.ok ()) = (⟨false, true, 0, true⟩, .skipped, 0) ∧
    (proxy_de_init ⟨false, true, 0, true⟩ (.ok ())).2 = (.skipped, 0) ∧
    (is_connected .homegear ⟨false, true, 0, true⟩ 7 .proxyError 120).2 = false :=
  C8_non_connecting_client ⟨false, true, 0, true⟩ 7 120 (.ok ()) .homegear
    .proxyError rfl (by decide)

/-- C9: every run of the liveness probe rewrites the initialization
timestamp, in both client flavors: a successful probe sets it to the
current time and reports success; a NoConnection or ProxyException
resets it to 0 and reports failure. -/
theorem C9_probe_updates_timestamp (st : ClientState) (now : Int) (probe : ProbeResult) :
    (probe = .ok true →
      clientCCU_check_connection st now probe = ({ st with time_initialized := now }, true) ∧
      clientHomegear_check_connection st now probe =
        ({ st with time_initialized := now }, true)) ∧
    (probe = .noConnection ∨ probe = .proxyError →
      clientCCU_check_connection st now probe = ({ st with time_initialized := 0 }, false) ∧
      clientHomegear_check_connection st now probe =
        ({ st with time_initialized := 0 }, false)) := by
  constructor
  · intro h
    subst h
    exact ⟨rfl, rfl⟩
  · intro h
    rcases h with h | h <;> subst h <;> exact ⟨rfl, rfl⟩

theorem C9_probe_updates_timestamp_witness :
    clientCCU_check_connection ⟨true, true, 3, false⟩ 42 (.ok true) =
      (⟨true, true, 42, false⟩, true) ∧
    clientHomegear_check_connection ⟨true, true, 3, false⟩ 42 .noConnection =
      (⟨true, true, 0, false⟩, false) :=
  ⟨(C9_probe_updates_timestamp ⟨true, true, 3, false⟩ 42 (.ok true)).1 rfl |>.1,
   (C9_probe_updates_timestamp ⟨true, true, 3, false⟩ 42 .noConnection).2
     (Or.inl rfl) |>.2⟩

end Hahomematic
